import Mathlib

/-!
Shallow embedding of the `github-activity-report` program
(`src/github_activity_report/main.py` together with the pydantic models in
`src/github_activity_report/github_models.py`).

Two parts of the program are embedded:

* the tolerant decoder `load_events` (main.py lines 82-152), modelled over an
  abstraction of raw JSON records in namespace `decoder`;
* the aggregation reducer inside `main` (main.py lines 203-317), modelled over
  typed events in namespace `github_models` plus the aggregate `NamedTuple`s of
  main.py in namespace `main`.

Python `dict`s are modelled as insertion-ordered association lists
(`dictGet`/`dictSet`), Python's stable `sorted(..., key=...)` as Mathlib's
stable `List.insertionSort`, `datetime` values as integers ordered by `≤`, and
Python `set[int]` as `Finset Nat`.
-/

namespace decoder

/--
Abstraction of one raw JSON record, as seen by the validators of
`github_models.py`.  Each pydantic `model_validate` call is a deterministic
function of the record that either returns a typed object or raises
`ValidationError`; the abstraction records exactly the information those
outcomes depend on:

* `envelopeOk` — the common `EventBase` fields (`id`, `actor`, `repo`,
  `created_at`, optional `org`) validate;
* `hasType`    — a `type` field is present and validates as `str`;
* `typeVal`    — its value (meaningful only when `hasType` is true);
* `payloadValidFor` — the discriminator tags whose variant-specific payload
  schema this record's payload satisfies.
-/
structure Raw where
  envelopeOk : Bool
  hasType : Bool
  typeVal : String
  payloadValidFor : List String
deriving DecidableEq, Repr

/--
The discriminator values of the tagged union `github_models.Event`
(the `Literal["..."]` of each variant; `WatchEvent` is listed twice in the
source union, which is irrelevant for membership).
-/
def knownTags : List String :=
  ["CommitCommentEvent", "CreateEvent", "DeleteEvent", "ForkEvent", "GollumEvent",
   "IssueCommentEvent", "IssuesEvent", "MemberEvent", "PublicEvent", "PullRequestEvent",
   "PullRequestReviewEvent", "PullRequestReviewCommentEvent", "PullRequestReviewThreadEvent",
   "PushEvent", "ReleaseEvent", "SponsorshipEvent", "WatchEvent"]

/--
A decoded, strongly-typed event: the validated record tagged by its variant.
(The typed object produced by pydantic is a function of the raw record; the
abstraction keeps the record itself next to its tag.)
-/
structure Event where
  type : String
  raw : Raw
deriving DecidableEq, Repr

/-- The minimal `EventLight` model: envelope fields plus `type : str`. -/
structure EventLight where
  type : String
deriving DecidableEq, Repr

/-- `github_models.EventLight.model_validate(raw)`. -/
def eventLight_model_validate (r : Raw) : Option EventLight :=
  if r.envelopeOk && r.hasType then some ⟨r.typeVal⟩ else none

/--
`V.model_validate(raw)` for the variant whose discriminator literal is `tag`:
the envelope fields, the `Literal` type field and the variant payload must all
validate.
-/
def variant_model_validate (tag : String) (r : Raw) : Option Event :=
  if r.envelopeOk && r.hasType && (r.typeVal == tag) && r.payloadValidFor.contains tag then
    some ⟨tag, r⟩
  else none

/--
Validation of one element under the discriminated union `github_models.Event`:
pydantic first requires the discriminator to be present and to be one of the
known literals, then validates the selected variant.
-/
def union_validate (r : Raw) : Option Event :=
  if r.hasType && knownTags.contains r.typeVal then variant_model_validate r.typeVal r
  else none

/-- `github_models.Events.model_validate(events_raw)`: all-or-nothing over the list. -/
def events_model_validate (l : List Raw) : Option (List Event) :=
  l.mapM union_validate

/--
The exceptions that can arise inside the fallback loop of `load_events`:
pydantic's `ValidationError` (caught by the two `except ValidationError`
handlers) and `TypeError` (not caught by them).
-/
inductive PyExc where
  | validationError
  | typeError
deriving DecidableEq, Repr

/-- A failing `model_validate` raises `ValidationError`. -/
def asRaised (o : Option Event) : Except PyExc Event :=
  match o with
  | some e => Except.ok e
  | none => Except.error PyExc.validationError

/--
The `if event_light.type == ... / elif ... / else` dispatch chain of
`load_events` (main.py lines 102-144).

The final `else` branch executes `raise ValidationError(f"Unexpected event
type: {event_light.type}")`.  Under pydantic v2 (this program uses the v2-only
`model_validate` / `RootModel` API), `pydantic.ValidationError` is the
`pydantic_core` class, which cannot be instantiated from a plain string: the
constructor call itself raises `TypeError`.  That branch therefore raises
`TypeError`, not `ValidationError`.
-/
def dispatch (light : EventLight) (r : Raw) : Except PyExc Event :=
  if light.type == "CommitCommentEvent" then asRaised (variant_model_validate "CommitCommentEvent" r)
  else if light.type == "CreateEvent" then asRaised (variant_model_validate "CreateEvent" r)
  else if light.type == "DeleteEvent" then asRaised (variant_model_validate "DeleteEvent" r)
  else if light.type == "ForkEvent" then asRaised (variant_model_validate "ForkEvent" r)
  else if light.type == "GollumEvent" then asRaised (variant_model_validate "GollumEvent" r)
  else if light.type == "IssueCommentEvent" then asRaised (variant_model_validate "IssueCommentEvent" r)
  else if light.type == "IssuesEvent" then asRaised (variant_model_validate "IssuesEvent" r)
  else if light.type == "MemberEvent" then asRaised (variant_model_validate "MemberEvent" r)
  else if light.type == "PublicEvent" then asRaised (variant_model_validate "PublicEvent" r)
  else if light.type == "PullRequestEvent" then asRaised (variant_model_validate "PullRequestEvent" r)
  else if light.type == "PullRequestReviewEvent" then asRaised (variant_model_validate "PullRequestReviewEvent" r)
  else if light.type == "PullRequestReviewCommentEvent" then asRaised (variant_model_validate "PullRequestReviewCommentEvent" r)
  else if light.type == "PullRequestReviewThreadEvent" then asRaised (variant_model_validate "PullRequestReviewThreadEvent" r)
  else if light.type == "PushEvent" then asRaised (variant_model_validate "PushEvent" r)
  else if light.type == "ReleaseEvent" then asRaised (variant_model_validate "ReleaseEvent" r)
  else if light.type == "SponsorshipEvent" then asRaised (variant_model_validate "SponsorshipEvent" r)
  else if light.type == "WatchEvent" then asRaised (variant_model_validate "WatchEvent" r)
  else Except.error PyExc.typeError

/--
The per-record fallback loop of `load_events` (main.py lines 91-152): failing
`EventLight` validation skips the record (`continue`); a `ValidationError` from
the dispatched variant validation skips the record; a `TypeError` from the
unknown-tag branch is not caught by `except ValidationError` and aborts the
whole call.
-/
def fallback_loop : List Raw → Except PyExc (List Event)
  | [] => Except.ok []
  | r :: rs =>
    match eventLight_model_validate r with
    | none => fallback_loop rs
    | some light =>
      match dispatch light r with
      | Except.ok e => (fallback_loop rs).map (fun es => e :: es)
      | Except.error PyExc.validationError => fallback_loop rs
      | Except.error PyExc.typeError => Except.error PyExc.typeError

/--
`load_events` (main.py lines 82-152): strict whole-batch validation first,
falling back to the per-record loop when it fails.
-/
def load_events (l : List Raw) : Except PyExc (List Event) :=
  match events_model_validate l with
  | some es => Except.ok es
  | none => fallback_loop l

/-- A wholly well-formed record: it validates under the full tagged union. -/
def wellFormed (r : Raw) : Bool :=
  (union_validate r).isSome

end decoder

namespace github_models

/-- `github_models.EventActor`; only `login` is read by the reducer. -/
structure EventActor where
  login : String
deriving DecidableEq, Repr

/-- `github_models.EventRepository`; only `name` is read by the reducer. -/
structure EventRepository where
  name : String
deriving DecidableEq, Repr

/-- `github_models.User`; only `login` is read by the reducer. -/
structure User where
  login : String
deriving DecidableEq, Repr

/-- `github_models.Repo`; only `full_name` is read by the reducer. -/
structure Repo where
  full_name : String
deriving DecidableEq, Repr

/-- `github_models.Branch` (a PR head/base ref); the reducer reads `ref` and `repo.full_name`. -/
structure Branch where
  ref : String
  repo : Repo
deriving DecidableEq, Repr

/--
`github_models.PullRequest` (the embedded PR snapshot); fields read by the
reducer: `number`, `title`, `user.login`, `body` (`str | None`), `head`.
-/
structure PullRequest where
  number : Nat
  title : String
  user : User
  body : Option String
  head : Branch
deriving DecidableEq, Repr

/-- `github_models.PullRequestEventPayload`; the reducer reads `action` and `pull_request`. -/
structure PullRequestEventPayload where
  action : String
  pull_request : PullRequest
deriving DecidableEq, Repr

/-- `github_models.PullRequestEvent`; envelope fields read: `actor`, `repo`, `created_at`. -/
structure PullRequestEvent where
  actor : EventActor
  repo : EventRepository
  created_at : Int
  payload : PullRequestEventPayload
deriving DecidableEq, Repr

/-- `github_models.IssuePullRequest`: the pull-request sub-link of an issue. -/
structure IssuePullRequest where
  merged_at : Option Int
deriving DecidableEq, Repr

/--
`github_models.Issue` (the embedded issue snapshot); fields read by the
reducer: `number`, `title`, `user.login`, `pull_request` (presence test).
-/
structure Issue where
  number : Nat
  title : String
  user : User
  pull_request : Option IssuePullRequest
deriving DecidableEq, Repr

/-- `github_models.IssueCommentEventPayload`; the reducer reads `action` and `issue`. -/
structure IssueCommentEventPayload where
  action : String
  issue : Issue
deriving DecidableEq, Repr

/-- `github_models.IssueCommentEvent`; envelope fields read: `actor`, `repo`, `created_at`. -/
structure IssueCommentEvent where
  actor : EventActor
  repo : EventRepository
  created_at : Int
  payload : IssueCommentEventPayload
deriving DecidableEq, Repr

/--
The decoded `github_models.Event` union as consumed by the reducer: the two
variants it dispatches on, plus one constructor standing for all remaining
variants (which the reducer filters out; their envelope still has a
repository and a timestamp).
-/
inductive Event where
  | pullRequestEvent (e : PullRequestEvent)
  | issueCommentEvent (e : IssueCommentEvent)
  | otherEvent (repo : EventRepository) (created_at : Int)
deriving DecidableEq, Repr

/-- The repository name of an event's envelope (`event.repo.name`). -/
def Event.repoName : Event → String
  | .pullRequestEvent e => e.repo.name
  | .issueCommentEvent e => e.repo.name
  | .otherEvent repo _ => repo.name

end github_models

namespace main

/-- `main.Commit` NamedTuple. -/
structure Commit where
  creator : String
  sha : String
deriving DecidableEq, Repr

/-- `main.Branch` NamedTuple (aggregate; `repo` is the head repo full name). -/
structure Branch where
  ref : String
  repo : String
  commits : List Commit
deriving DecidableEq, Repr

/-- `main.Action` NamedTuple (`by` renamed `by_`: `by` is a Lean keyword). -/
structure Action where
  action : String
  date : Int
  by_ : String
deriving DecidableEq, Repr

/-- `main.Issue` NamedTuple (aggregate). -/
structure Issue where
  number : Nat
  title : String
  creator : String
  actions : List Action
deriving DecidableEq, Repr

/-- `main.PullRequest` NamedTuple (aggregate). -/
structure PullRequest where
  number : Nat
  title : String
  creator : String
  linked_issues : List Issue
  linked_issues_ids : Finset Nat
  branch : Option Branch
  actions : List Action
deriving DecidableEq

/-- `main.Repository` NamedTuple (aggregate). -/
structure Repository where
  name : String
  pull_requests : List (String × PullRequest)
  issues : List (String × Issue)
  branches : List (String × Branch)
deriving DecidableEq

/--
Python `dict[str, α]` read, over the insertion-ordered association-list model:
the value of the first (only) entry with the given key.
-/
def dictGet {α : Type} (m : List (String × α)) (k : String) : Option α :=
  (m.find? (fun p => p.1 == k)).map (fun p => p.2)

/--
Python `d[k] = v` over the insertion-ordered association-list model: replace
the entry in place when the key is present, append it otherwise.
-/
def dictSet {α : Type} (m : List (String × α)) (k : String) (v : α) : List (String × α) :=
  if (m.find? (fun p => p.1 == k)).isSome then
    m.map (fun p => if p.1 == k then (k, v) else p)
  else m ++ [(k, v)]

/--
The alternatives of `ISSUE_PR_LINK_PATTERN`'s keyword part
`(?:close(?:s|d)?|fix(?:es|ed)?|resolve(?:s|d)?)`, longest first per greedy
matching.  (The three groups start with distinct letters, so at most one
alternative can match at a given position; and when the optional suffix
matches, backtracking to the suffix-less form cannot help, because the
following letter then blocks the mandatory `\s+`.)
-/
def closingKeywordForms : List String :=
  ["closes", "closed", "close", "fixes", "fixed", "fix", "resolves", "resolved", "resolve"]

/-- Match the keyword part of `ISSUE_PR_LINK_PATTERN` at the head of `cs`. -/
def stripClosingKeyword (cs : List Char) : Option (List Char) :=
  (closingKeywordForms.find? (fun kw => kw.data.isPrefixOf cs)).map (fun kw => cs.drop kw.length)

/--
The `\s+` of `ISSUE_PR_LINK_PATTERN`: at least one whitespace character, then
greedily all following whitespace (the next pattern character `#` is not
whitespace, so the greedy munch is exact).  Whitespace is modelled by
`Char.isWhitespace`, the ASCII-common core of Python's `\s`.
-/
def skipRequiredWhitespace : List Char → Option (List Char)
  | [] => none
  | c :: cs => if c.isWhitespace then some (cs.dropWhile Char.isWhitespace) else none

/-- Decimal value of a digit run, as Python's `int(...)` of the captured group. -/
def digitsToNat (ds : List Char) : Nat :=
  ds.foldl (fun n c => 10 * n + (c.toNat - '0'.toNat)) 0

/--
Match the whole `ISSUE_PR_LINK_PATTERN` at the head of `cs` (already
lower-cased): keyword, `\s+`, `#`, then the captured `\d+` (ASCII digits).
Returns the captured number and the remainder after the match.
-/
def matchLinkAt (cs : List Char) : Option (Nat × List Char) :=
  match stripClosingKeyword cs with
  | none => none
  | some rest =>
    match skipRequiredWhitespace rest with
    | none => none
    | some rest2 =>
      match rest2 with
      | '#' :: rest3 =>
        let ds := rest3.takeWhile Char.isDigit
        if ds.isEmpty then none
        else some (digitsToNat ds, rest3.dropWhile Char.isDigit)
      | _ => none

/--
`re.finditer` over the text: scan left to right; on a match, emit the captured
number and resume after the match (matches are non-overlapping); otherwise
advance one character.  The fuel is the text length; every match consumes at
least the keyword, so the remainder is always shorter than the current text.
-/
def scanLinks : Nat → List Char → List Nat
  | 0, _ => []
  | _ + 1, [] => []
  | fuel + 1, c :: cs =>
    match matchLinkAt (c :: cs) with
    | some (n, rest) => n :: scanLinks fuel rest
    | none => scanLinks fuel cs

/--
The captured ids of `ISSUE_PR_LINK_PATTERN.finditer(body)` in match order
(main.py lines 27-29 and 253-258).  `re.IGNORECASE` is modelled by
lower-casing the text: the pattern's letters are lower case, and lower-casing
affects neither `\s`, `#` nor `\d`.
-/
def issue_pr_link_ids (body : String) : List Nat :=
  scanLinks body.data.length (body.data.map Char.toLower)

/--
The body-dependent update of `pr.linked_issues_ids` (main.py lines 250-258):
only a truthy body (present and non-empty) clears the set and refills it with
the freshly extracted ids.
-/
def updateLinkedIssues (pr : PullRequest) (body : Option String) : PullRequest :=
  match body with
  | some b =>
    if b ≠ "" then { pr with linked_issues_ids := (issue_pr_link_ids b).toFinset } else pr
  | none => pr

/--
The body of the pass-A loop (main.py lines 218-258) as a function of the
current entry for the event's repository: resolve or create the `Repository`,
resolve or create the `PullRequest` keyed by `str(number)` (a created
aggregate takes title/creator/branch from the event's PR snapshot), append the
`"PR " + action` action, then update the linked-issue ids from the body.
-/
def processPullRequestEventRepo (event : github_models.PullRequestEvent)
    (repoOpt : Option Repository) : Repository :=
  let repo := match repoOpt with
    | some r => r
    | none => { name := event.repo.name, pull_requests := [], issues := [], branches := [] }
  let issue_number := toString event.payload.pull_request.number
  let pr := match dictGet repo.pull_requests issue_number with
    | some pr => pr
    | none =>
      { number := event.payload.pull_request.number
        title := event.payload.pull_request.title
        creator := event.payload.pull_request.user.login
        linked_issues := []
        linked_issues_ids := ∅
        branch := some { ref := event.payload.pull_request.head.ref,
                         repo := event.payload.pull_request.head.repo.full_name,
                         commits := [] }
        actions := [] }
  let pr := { pr with
    actions := pr.actions ++
      [{ action := "PR " ++ event.payload.action, date := event.created_at,
         by_ := event.actor.login }] }
  let pr := updateLinkedIssues pr event.payload.pull_request.body
  { repo with pull_requests := dictSet repo.pull_requests issue_number pr }

/--
One pass-A step on the repositories map: the loop body only reads and writes
the entry of the event's repository.
-/
def processPullRequestEvent (repositories : List (String × Repository))
    (event : github_models.PullRequestEvent) : List (String × Repository) :=
  dictSet repositories event.repo.name
    (processPullRequestEventRepo event (dictGet repositories event.repo.name))

/--
The body of the pass-B loop (main.py lines 268-317) as a function of the
current entry for the event's repository: when the embedded issue carries a
pull-request sub-link, resolve or create the `PullRequest` aggregate keyed by
`str(issue.number)` (created with `branch = None`) and append
`"PR comment " + action`; otherwise resolve or create the `Issue` aggregate
and append `"Issue comment " + action`.
-/
def processIssueCommentEventRepo (event : github_models.IssueCommentEvent)
    (repoOpt : Option Repository) : Repository :=
  let repo := match repoOpt with
    | some r => r
    | none => { name := event.repo.name, pull_requests := [], issues := [], branches := [] }
  match event.payload.issue.pull_request with
  | some _ =>
    let issue_number := toString event.payload.issue.number
    let pr := match dictGet repo.pull_requests issue_number with
      | some pr => pr
      | none =>
        { number := event.payload.issue.number
          title := event.payload.issue.title
          creator := event.payload.issue.user.login
          linked_issues := []
          linked_issues_ids := ∅
          branch := none
          actions := [] }
    let pr := { pr with
      actions := pr.actions ++
        [{ action := "PR comment " ++ event.payload.action, date := event.created_at,
           by_ := event.actor.login }] }
    { repo with pull_requests := dictSet repo.pull_requests issue_number pr }
  | none =>
    let issue_number := toString event.payload.issue.number
    let issue := match dictGet repo.issues issue_number with
      | some i => i
      | none =>
        { number := event.payload.issue.number
          title := event.payload.issue.title
          creator := event.payload.issue.user.login
          actions := [] }
    let issue := { issue with
      actions := issue.actions ++
        [{ action := "Issue comment " ++ event.payload.action, date := event.created_at,
           by_ := event.actor.login }] }
    { repo with issues := dictSet repo.issues issue_number issue }

/-- One pass-B step on the repositories map. -/
def processIssueCommentEvent (repositories : List (String × Repository))
    (event : github_models.IssueCommentEvent) : List (String × Repository) :=
  dictSet repositories event.repo.name
    (processIssueCommentEventRepo event (dictGet repositories event.repo.name))

/-- The `event_is_pull_request` TypeGuard: `filter` plus the cast, as a `filterMap`. -/
def event_is_pull_request : github_models.Event → Option github_models.PullRequestEvent
  | .pullRequestEvent e => some e
  | _ => none

/-- The `event_is_issue_comment` TypeGuard: `filter` plus the cast, as a `filterMap`. -/
def event_is_issue_comment : github_models.Event → Option github_models.IssueCommentEvent
  | .issueCommentEvent e => some e
  | _ => none

/-- The sort key `lambda event: event.created_at` of pass A, as a relation. -/
def pr_event_le (a b : github_models.PullRequestEvent) : Prop :=
  a.created_at ≤ b.created_at

instance : DecidableRel pr_event_le :=
  fun a b => inferInstanceAs (Decidable (a.created_at ≤ b.created_at))

instance : IsTotal github_models.PullRequestEvent pr_event_le :=
  ⟨fun a b => Int.le_total a.created_at b.created_at⟩

instance : IsTrans github_models.PullRequestEvent pr_event_le :=
  ⟨fun _ _ _ h1 h2 => le_trans h1 h2⟩

/-- The sort key `lambda event: event.created_at` of pass B, as a relation. -/
def ic_event_le (a b : github_models.IssueCommentEvent) : Prop :=
  a.created_at ≤ b.created_at

instance : DecidableRel ic_event_le :=
  fun a b => inferInstanceAs (Decidable (a.created_at ≤ b.created_at))

instance : IsTotal github_models.IssueCommentEvent ic_event_le :=
  ⟨fun a b => Int.le_total a.created_at b.created_at⟩

instance : IsTrans github_models.IssueCommentEvent ic_event_le :=
  ⟨fun _ _ _ h1 h2 => le_trans h1 h2⟩

/--
Pass A (main.py lines 214-258): fold the pass-A step over the
`PullRequestEvent`s, sorted by creation timestamp (Python's `sorted` is
stable; `List.insertionSort` with `≤` on the key is the stable sort).
-/
def pass_a (events : List github_models.Event)
    (repositories : List (String × Repository)) : List (String × Repository) :=
  (List.insertionSort pr_event_le (events.filterMap event_is_pull_request)).foldl
    processPullRequestEvent repositories

/-- Pass B (main.py lines 265-317): same, over the `IssueCommentEvent`s. -/
def pass_b (events : List github_models.Event)
    (repositories : List (String × Repository)) : List (String × Repository) :=
  (List.insertionSort ic_event_le (events.filterMap event_is_issue_comment)).foldl
    processIssueCommentEvent repositories

/--
The aggregation part of `main` (main.py lines 203-317): starting from an empty
repositories map, run pass A to completion, then pass B.
-/
def main_aggregate (events : List github_models.Event) : List (String × Repository) :=
  pass_b events (pass_a events [])

/-- The `PullRequest` aggregate stored under repository `r` at key `k`. -/
def lookupPR (repositories : List (String × Repository)) (r k : String) : Option PullRequest :=
  (dictGet repositories r).bind (fun repo => dictGet repo.pull_requests k)

/-- The `Issue` aggregate stored under repository `r` at key `k`. -/
def lookupIssue (repositories : List (String × Repository)) (r k : String) : Option Issue :=
  (dictGet repositories r).bind (fun repo => dictGet repo.issues k)

/-- The action list of the `PullRequest` aggregate at `(r, k)` (empty when absent). -/
def prActions (repositories : List (String × Repository)) (r k : String) : List Action :=
  ((lookupPR repositories r k).map (fun pr => pr.actions)).getD []

/-- The action list of the `Issue` aggregate at `(r, k)` (empty when absent). -/
def issueActions (repositories : List (String × Repository)) (r k : String) : List Action :=
  ((lookupIssue repositories r k).map (fun i => i.actions)).getD []

/-- The issues map of the repository entry at `r` (empty when absent). -/
def repoIssues (repositories : List (String × Repository)) (r : String) : List (String × Issue) :=
  ((dictGet repositories r).map (fun repo => repo.issues)).getD []

/-- The pull-requests map of the repository entry at `r` (empty when absent). -/
def repoPRs (repositories : List (String × Repository)) (r : String) : List (String × PullRequest) :=
  ((dictGet repositories r).map (fun repo => repo.pull_requests)).getD []

end main

/-- Identity fields of a `PullRequest` aggregate: everything except the action
history and the linked-issue id set. -/
def main.prIdentityEq (a b : main.PullRequest) : Prop :=
  a.number = b.number ∧ a.title = b.title ∧ a.creator = b.creator ∧
  a.branch = b.branch ∧ a.linked_issues = b.linked_issues

/-- `p` is a prefix of the string `s` (character-level, executable). -/
def main.strHasPrefix (p s : String) : Bool :=
  p.data.isPrefixOf s.data

namespace fixtures

/-- Fixture builder for a `PullRequestEvent`. -/
def prEvent (repo : String) (n : Nat) (title user : String) (body : Option String)
    (ref fullName : String) (t : Int) (act actor : String) : github_models.PullRequestEvent :=
  { actor := ⟨actor⟩, repo := ⟨repo⟩, created_at := t,
    payload :=
      { action := act,
        pull_request :=
          { number := n, title := title, user := ⟨user⟩, body := body,
            head := { ref := ref, repo := ⟨fullName⟩ } } } }

/-- Fixture builder for an `IssueCommentEvent`. -/
def icEvent (repo : String) (n : Nat) (title user : String) (linked : Bool) (t : Int)
    (act actor : String) : github_models.IssueCommentEvent :=
  { actor := ⟨actor⟩, repo := ⟨repo⟩, created_at := t,
    payload :=
      { action := act,
        issue :=
          { number := n, title := title, user := ⟨user⟩,
            pull_request := if linked then some ⟨none⟩ else none } } }

/-- A record that fully validates as a `WatchEvent`. -/
def watch_ok : decoder.Raw :=
  { envelopeOk := true, hasType := true, typeVal := "WatchEvent", payloadValidFor := ["WatchEvent"] }

/-- A record with a valid envelope and a discriminator outside the known set. -/
def unknown_tag : decoder.Raw :=
  { envelopeOk := true, hasType := true, typeVal := "TotoEvent", payloadValidFor := [] }

/-- A record that fully validates as a `CreateEvent`. -/
def create_ok : decoder.Raw :=
  { envelopeOk := true, hasType := true, typeVal := "CreateEvent", payloadValidFor := ["CreateEvent"] }

/-- A record that fully validates as a `ForkEvent`. -/
def fork_ok : decoder.Raw :=
  { envelopeOk := true, hasType := true, typeVal := "ForkEvent", payloadValidFor := ["ForkEvent"] }

/-- Another envelope-valid record with an unknown discriminator. -/
def unknown_tag2 : decoder.Raw :=
  { envelopeOk := true, hasType := true, typeVal := "DiscussionEvent", payloadValidFor := [] }

/-- A record that fully validates as a `GollumEvent`. -/
def gollum_ok : decoder.Raw :=
  { envelopeOk := true, hasType := true, typeVal := "GollumEvent", payloadValidFor := ["GollumEvent"] }

/-- A record that fully validates as a `PushEvent`. -/
def push_ok : decoder.Raw :=
  { envelopeOk := true, hasType := true, typeVal := "PushEvent", payloadValidFor := ["PushEvent"] }

/-- C4: first event, body `"Fixes #42 and closes #7"`. -/
def c4_open : github_models.Event :=
  .pullRequestEvent
    (prEvent "octo/hello" 12 "Do things" "dana" (some "Fixes #42 and closes #7")
      "topic" "dana/fork" 1 "opened" "dana")

/-- C4: later event for the same PR with an empty body. -/
def c4_empty : github_models.Event :=
  .pullRequestEvent
    (prEvent "octo/hello" 12 "Do things" "dana" (some "") "topic" "dana/fork" 2 "edited" "dana")

/-- C4: still later event with body `"resolves #9"`. -/
def c4_resolve : github_models.Event :=
  .pullRequestEvent
    (prEvent "octo/hello" 12 "Do things" "dana" (some "resolves #9") "topic" "dana/fork" 3
      "closed" "dana")

/-- C5: the `PullRequestEvent` (the richer event, carrying the branch). -/
def c5_pr : github_models.Event :=
  .pullRequestEvent (prEvent "acme/site" 5 "Add feature" "alice" none "feat" "alice/fork" 10
    "opened" "alice")

/-- C5: the `IssueCommentEvent` for the same repo and PR number, with a
pull-request sub-link and different title/creator in its issue snapshot. -/
def c5_ic : github_models.Event :=
  .issueCommentEvent (icEvent "acme/site" 5 "stale title" "carol" true 20 "created" "bob")

/-- C6 witness: earlier `PullRequestEvent`. -/
def c6_e1 : github_models.PullRequestEvent :=
  prEvent "w6/repo" 3 "C6" "eve" none "b" "eve/f" 1 "opened" "eve"

/-- C6 witness: later `PullRequestEvent` for the same repo and number. -/
def c6_e2 : github_models.PullRequestEvent :=
  prEvent "w6/repo" 3 "C6" "eve" none "b" "eve/f" 2 "closed" "eve"

/-- C7 witness: comment event whose issue has the pull-request sub-link. -/
def c7_linked : github_models.IssueCommentEvent :=
  icEvent "w7/repo" 9 "Linked" "uma" true 4 "created" "vic"

/-- C7 witness: comment event whose issue has no pull-request sub-link. -/
def c7_plain : github_models.IssueCommentEvent :=
  icEvent "w7/repo" 4 "Plain" "uma" false 5 "created" "vic"

/-- C10 witness: an existing `PullRequest` aggregate created without a branch. -/
def c10_pr0 : main.PullRequest :=
  { number := 2, title := "T10", creator := "zed", linked_issues := [],
    linked_issues_ids := ∅, branch := none,
    actions := [{ action := "PR comment created", date := 1, by_ := "yan" }] }

/-- C10 witness: a repositories map holding `c10_pr0`. -/
def c10_state : List (String × main.Repository) :=
  [("w10/repo",
    { name := "w10/repo", pull_requests := [("2", c10_pr0)], issues := [], branches := [] })]

/-- C10 witness: a subsequent `PullRequestEvent` for the same PR with
conflicting title/creator/branch data and a body. -/
def c10_prev : github_models.PullRequestEvent :=
  prEvent "w10/repo" 2 "other title" "xan" (some "fixes #3") "b" "xan/f" 6 "closed" "xan"

/-- C10 witness: a subsequent `IssueCommentEvent` for the same PR. -/
def c10_icev : github_models.IssueCommentEvent :=
  icEvent "w10/repo" 2 "another" "xan" true 7 "created" "xan"

end fixtures

/--
**C1** (code bug).  The claim says `load_events` never raises on account of a
single bad record and that a record with an unknown discriminator is skipped
and logged.  The code disagrees: on a batch holding one fully valid record and
one envelope-valid record whose `type` is not a known variant, the fallback
loop reaches `raise ValidationError(f"Unexpected event type: ...")`
(main.py line 144); under pydantic v2 that constructor call itself raises
`TypeError`, which the `except ValidationError` handler does not catch, so
`load_events` raises to the caller instead of returning the remaining decoded
events.
-/
theorem claim_C1_unknown_variant_escapes :
    decoder.load_events [fixtures.watch_ok, fixtures.unknown_tag] =
      Except.error decoder.PyExc.typeError := by
  rfl

/--
**C3** (code bug).  An otherwise valid 2-record batch decodes to 2 events, but
injecting one malformed record — here an envelope-valid record with an unknown
discriminator — makes `load_events` raise `TypeError` (see C1) instead of
returning the N-1 = 2 decoded events in order.
-/
theorem claim_C3_injected_bad_record_aborts :
    decoder.load_events [fixtures.create_ok, fixtures.fork_ok] =
      Except.ok [⟨"CreateEvent", fixtures.create_ok⟩, ⟨"ForkEvent", fixtures.fork_ok⟩]
  ∧ decoder.load_events [fixtures.create_ok, fixtures.unknown_tag2, fixtures.fork_ok] =
      Except.error decoder.PyExc.typeError := by
  exact ⟨rfl, rfl⟩

/--
**C4** (confirmed).  A PR body `"Fixes #42 and closes #7"` sets the
linked-issue-id set of the aggregate to `{42, 7}` (case-insensitive
closing-keyword-then-#number extraction); a later event for the same PR with
an empty body leaves the set unchanged; a later event with body
`"resolves #9"` replaces the whole set by `{9}`.
-/
theorem claim_C4_linked_issue_extraction :
    (main.lookupPR (main.main_aggregate [fixtures.c4_open]) "octo/hello" "12").map
        (fun p => p.linked_issues_ids) = some {42, 7}
  ∧ (main.lookupPR (main.main_aggregate [fixtures.c4_open, fixtures.c4_empty]) "octo/hello"
        "12").map (fun p => p.linked_issues_ids) = some {42, 7}
  ∧ (main.lookupPR
        (main.main_aggregate [fixtures.c4_open, fixtures.c4_empty, fixtures.c4_resolve])
        "octo/hello" "12").map (fun p => p.linked_issues_ids) = some {9} := by
  refine ⟨by decide, by decide, by decide⟩

/--
**C5** (confirmed).  A `PullRequestEvent` and an `IssueCommentEvent` (whose
issue carries the pull-request sub-link) for the same repository and PR
number resolve, in either input order, to one and the same `PullRequest`
aggregate keyed by that number: the final maps are identical for both orders,
the aggregate carries the branch descriptor from the richer event, title and
creator come from the event that wrote them (the comment event's diverging
snapshot title/creator never overwrites them), both actions are present, and
no `Issue` aggregate is created.
-/
theorem claim_C5_cross_kind_same_aggregate :
    main.main_aggregate [fixtures.c5_pr, fixtures.c5_ic] =
      main.main_aggregate [fixtures.c5_ic, fixtures.c5_pr]
  ∧ main.lookupPR (main.main_aggregate [fixtures.c5_pr, fixtures.c5_ic]) "acme/site" "5" =
      some { number := 5, title := "Add feature", creator := "alice", linked_issues := [],
             linked_issues_ids := ∅,
             branch := some { ref := "feat", repo := "alice/fork", commits := [] },
             actions := [{ action := "PR opened", date := 10, by_ := "alice" },
                         { action := "PR comment created", date := 20, by_ := "bob" }] }
  ∧ main.lookupIssue (main.main_aggregate [fixtures.c5_pr, fixtures.c5_ic]) "acme/site" "5" =
      none := by
  refine ⟨by decide, by decide, by decide⟩

namespace main

theorem dictGet_nil {α : Type} (k : String) : dictGet ([] : List (String × α)) k = none := rfl

theorem dictGet_cons {α : Type} (a : String) (b : α) (t : List (String × α)) (k : String) :
    dictGet ((a, b) :: t) k = if a = k then some b else dictGet t k := by
  by_cases h : a = k <;> simp [dictGet, List.find?_cons, h]

theorem isSome_find?_eq {α : Type} (m : List (String × α)) (k : String) :
    (m.find? (fun p => p.1 == k)).isSome = (dictGet m k).isSome := by
  simp [dictGet]

theorem dictGet_map_set {α : Type} (m : List (String × α)) (k k' : String) (v : α) :
    dictGet (m.map (fun p => if p.1 == k then (k, v) else p)) k' =
      if k = k' then (dictGet m k).map (fun _ => v) else dictGet m k' := by
  induction m with
  | nil => simp [dictGet]
  | cons p t ih =>
    obtain ⟨a, b⟩ := p
    simp only [List.map_cons]
    by_cases hak : a = k
    · subst hak
      by_cases hkk : a = k'
      · subst hkk
        simp [dictGet_cons]
      · rw [if_neg hkk]
        simp only [beq_self_eq_true, if_true]
        rw [dictGet_cons, dictGet_cons, if_neg hkk, if_neg hkk, ih, if_neg hkk]
    · have hb : (a == k) = false := by simp [hak]
      simp only [hb, Bool.false_eq_true, if_false]
      by_cases hak' : a = k'
      · subst hak'
        have hkk : ¬ k = a := fun h => hak h.symm
        simp [dictGet_cons, hkk]
      · rw [dictGet_cons, if_neg hak', ih]
        by_cases hkk : k = k'
        · rw [if_pos hkk, if_pos hkk, dictGet_cons, if_neg hak]
        · rw [if_neg hkk, if_neg hkk, dictGet_cons, if_neg hak']

theorem dictGet_dictSet {α : Type} (m : List (String × α)) (k k' : String) (v : α) :
    dictGet (dictSet m k v) k' = if k = k' then some v else dictGet m k' := by
  unfold dictSet
  rw [isSome_find?_eq]
  by_cases h : (dictGet m k).isSome
  · rw [if_pos h, dictGet_map_set]
    rcases Option.isSome_iff_exists.mp h with ⟨w, hw⟩
    by_cases hkk : k = k'
    · rw [if_pos hkk, if_pos hkk, hw]; rfl
    · rw [if_neg hkk, if_neg hkk]
  · rw [if_neg h]
    have hfind : List.find? (fun p => p.1 == k) m = none := by
      simpa [dictGet, Option.map_eq_none'] using Option.not_isSome_iff_eq_none.mp h
    by_cases hkk : k = k'
    · subst hkk
      simp [dictGet, List.find?_append, hfind, List.find?_cons]
    · have hkf : (k == k') = false := by simp [hkk]
      simp [dictGet, List.find?_append, List.find?_cons, hkf, hkk]

end main

/--
**C7** (confirmed).  Processing an `IssueCommentEvent` whose embedded issue
carries a populated pull-request sub-link appends `"PR comment " + verb` to
the `PullRequest` aggregate keyed by the issue's number in the event's
repository (creating it when absent) and leaves the repository's `Issue` map
untouched; without the sub-link it appends `"Issue comment " + verb` to the
`Issue` aggregate and leaves the `PullRequest` map untouched.
-/
theorem claim_C7_comment_routing (repositories : List (String × main.Repository))
    (event : github_models.IssueCommentEvent) :
    (event.payload.issue.pull_request.isSome →
        main.prActions (main.processIssueCommentEvent repositories event)
            event.repo.name (toString event.payload.issue.number) =
          main.prActions repositories event.repo.name (toString event.payload.issue.number) ++
            [{ action := "PR comment " ++ event.payload.action, date := event.created_at,
               by_ := event.actor.login }]
      ∧ main.repoIssues (main.processIssueCommentEvent repositories event) event.repo.name =
          main.repoIssues repositories event.repo.name)
  ∧ (event.payload.issue.pull_request = none →
        main.issueActions (main.processIssueCommentEvent repositories event)
            event.repo.name (toString event.payload.issue.number) =
          main.issueActions repositories event.repo.name (toString event.payload.issue.number) ++
            [{ action := "Issue comment " ++ event.payload.action, date := event.created_at,
               by_ := event.actor.login }]
      ∧ main.repoPRs (main.processIssueCommentEvent repositories event) event.repo.name =
          main.repoPRs repositories event.repo.name) := by
  constructor
  · intro hsome
    rcases Option.isSome_iff_exists.mp hsome with ⟨lnk, hlnk⟩
    constructor
    · simp only [main.processIssueCommentEvent, main.processIssueCommentEventRepo, hlnk,
        main.prActions, main.lookupPR, main.dictGet_dictSet, if_pos rfl]
      cases hrep : main.dictGet repositories event.repo.name with
      | none =>
        simp [main.dictGet_dictSet, main.dictGet_nil]
      | some repo =>
        cases hpr : main.dictGet repo.pull_requests (toString event.payload.issue.number) with
        | none => simp [main.dictGet_dictSet, hpr]
        | some pr => simp [main.dictGet_dictSet, hpr]
    · simp only [main.processIssueCommentEvent, main.processIssueCommentEventRepo, hlnk,
        main.repoIssues, main.dictGet_dictSet, if_pos rfl]
      cases hrep : main.dictGet repositories event.repo.name with
      | none => simp
      | some repo => simp
  · intro hnone
    constructor
    · simp only [main.processIssueCommentEvent, main.processIssueCommentEventRepo, hnone,
        main.issueActions, main.lookupIssue, main.dictGet_dictSet, if_pos rfl]
      cases hrep : main.dictGet repositories event.repo.name with
      | none => simp [main.dictGet_dictSet, main.dictGet_nil]
      | some repo =>
        cases his : main.dictGet repo.issues (toString event.payload.issue.number) with
        | none => simp [main.dictGet_dictSet, his]
        | some iss => simp [main.dictGet_dictSet, his]
    · simp only [main.processIssueCommentEvent, main.processIssueCommentEventRepo, hnone,
        main.repoPRs, main.dictGet_dictSet, if_pos rfl]
      cases hrep : main.dictGet repositories event.repo.name with
      | none => simp
      | some repo => simp

/-- Witness for C7 at concrete events applied to the empty repositories map. -/
theorem claim_C7_comment_routing_witness :
    (main.prActions (main.processIssueCommentEvent [] fixtures.c7_linked) "w7/repo" "9" =
        main.prActions [] "w7/repo" "9" ++
          [{ action := "PR comment created", date := 4, by_ := "vic" }]
      ∧ main.repoIssues (main.processIssueCommentEvent [] fixtures.c7_linked) "w7/repo" =
        main.repoIssues [] "w7/repo")
  ∧ (main.issueActions (main.processIssueCommentEvent [] fixtures.c7_plain) "w7/repo" "4" =
        main.issueActions [] "w7/repo" "4" ++
          [{ action := "Issue comment created", date := 5, by_ := "vic" }]
      ∧ main.repoPRs (main.processIssueCommentEvent [] fixtures.c7_plain) "w7/repo" =
        main.repoPRs [] "w7/repo") :=
  ⟨(claim_C7_comment_routing [] fixtures.c7_linked).1 (by decide),
   (claim_C7_comment_routing [] fixtures.c7_plain).2 (by decide)⟩

namespace decoder

/-- The dispatch chain is the ordered fold of the known tags. -/
theorem dispatch_eq_foldr (light : EventLight) (r : Raw) :
    dispatch light r = knownTags.foldr
      (fun tag rest => if light.type == tag then asRaised (variant_model_validate tag r) else rest)
      (Except.error PyExc.typeError) := rfl

theorem variant_model_validate_some {tag : String} {r : Raw} {e : Event}
    (h : variant_model_validate tag r = some e) :
    r.envelopeOk = true ∧ r.hasType = true ∧ r.typeVal = tag ∧
      tag ∈ r.payloadValidFor ∧ e = ⟨tag, r⟩ := by
  unfold variant_model_validate at h
  split at h
  · next hcond =>
    obtain ⟨⟨⟨h1, h2⟩, h3⟩, h4⟩ := by simpa [Bool.and_eq_true] using hcond
    exact ⟨h1, h2, by simpa using h3, h4, by injection h with h; exact h.symm⟩
  · cases h

theorem foldr_dispatch_of_mem {t : String} {r : Raw} {e : Event} {tags : List String}
    (hmem : t ∈ tags) (hval : variant_model_validate t r = some e) :
    tags.foldr (fun tag rest => if t == tag then asRaised (variant_model_validate tag r) else rest)
      (Except.error PyExc.typeError) = Except.ok e := by
  induction tags with
  | nil => cases hmem
  | cons a rest ih =>
    by_cases hta : t = a
    · subst hta
      simp [hval, asRaised]
    · have hb : (t == a) = false := by simp [hta]
      simp only [List.foldr_cons, hb, Bool.false_eq_true, if_false]
      refine ih ?_
      rcases List.mem_cons.mp hmem with h | h
      · exact absurd h hta
      · exact h

theorem union_validate_some {r : Raw} {e : Event} (h : union_validate r = some e) :
    r.hasType = true ∧ r.envelopeOk = true ∧ r.typeVal ∈ knownTags ∧
      variant_model_validate r.typeVal r = some e := by
  unfold union_validate at h
  split at h
  · next hcond =>
    obtain ⟨h1, h2⟩ := by simpa [Bool.and_eq_true] using hcond
    obtain ⟨henv, -, -, -, -⟩ := variant_model_validate_some h
    exact ⟨h1, henv, h2, h⟩
  · cases h

end decoder

/--
**C2** (confirmed).  On a batch in which every record is well-formed, the
strict whole-batch validation path and the per-record fallback path of
`load_events` produce the same typed event list (which is also what
`load_events` itself returns).
-/
theorem claim_C2_strict_eq_fallback (l : List decoder.Raw)
    (h : ∀ r ∈ l, decoder.wellFormed r) :
    ∃ es, decoder.events_model_validate l = some es
      ∧ decoder.fallback_loop l = Except.ok es
      ∧ decoder.load_events l = Except.ok es := by
  induction l with
  | nil => exact ⟨[], rfl, rfl, rfl⟩
  | cons r rs ih =>
    obtain ⟨es, hes, hfb, -⟩ := ih (fun x hx => h x (List.mem_cons_of_mem _ hx))
    have hr : decoder.wellFormed r := h r (List.mem_cons_self _ _)
    rcases Option.isSome_iff_exists.mp hr with ⟨e, he⟩
    obtain ⟨hty, henv, hmem, hvar⟩ := decoder.union_validate_some he
    have hlight : decoder.eventLight_model_validate r = some ⟨r.typeVal⟩ := by
      simp [decoder.eventLight_model_validate, henv, hty]
    have hdisp : decoder.dispatch ⟨r.typeVal⟩ r = Except.ok e := by
      rw [decoder.dispatch_eq_foldr]
      exact decoder.foldr_dispatch_of_mem hmem hvar
    have hes' : rs.mapM decoder.union_validate = some es := hes
    have hstrict : decoder.events_model_validate (r :: rs) = some (e :: es) := by
      show (r :: rs).mapM decoder.union_validate = some (e :: es)
      rw [List.mapM_cons, he, hes']
      rfl
    refine ⟨e :: es, hstrict, ?_, ?_⟩
    · simp [decoder.fallback_loop, hlight, hdisp, hfb, Except.map]
    · simp [decoder.load_events, hstrict]

/-- Witness for C2 on a concrete wholly well-formed batch. -/
theorem claim_C2_strict_eq_fallback_witness :
    (∀ r ∈ [fixtures.gollum_ok, fixtures.push_ok], decoder.wellFormed r)
  ∧ ∃ es, decoder.events_model_validate [fixtures.gollum_ok, fixtures.push_ok] = some es
      ∧ decoder.fallback_loop [fixtures.gollum_ok, fixtures.push_ok] = Except.ok es
      ∧ decoder.load_events [fixtures.gollum_ok, fixtures.push_ok] = Except.ok es :=
  ⟨by decide, claim_C2_strict_eq_fallback _ (by decide)⟩

namespace main

theorem dictSet_nil {α : Type} (k : String) (v : α) : dictSet ([] : List (String × α)) k v = [(k, v)] := rfl

theorem updateLinkedIssues_eq (pr : PullRequest) (body : Option String) :
    ∃ ids, updateLinkedIssues pr body = { pr with linked_issues_ids := ids } := by
  cases body with
  | none => exact ⟨pr.linked_issues_ids, rfl⟩
  | some b =>
    by_cases hb : b ≠ ""
    · exact ⟨(issue_pr_link_ids b).toFinset, by simp [updateLinkedIssues, hb]⟩
    · exact ⟨pr.linked_issues_ids, by simp [updateLinkedIssues, hb]⟩

theorem updateLinkedIssues_actions (pr : PullRequest) (body : Option String) :
    (updateLinkedIssues pr body).actions = pr.actions := by
  obtain ⟨ids, h⟩ := updateLinkedIssues_eq pr body
  rw [h]

end main

/--
**C6** (confirmed).  For two `PullRequestEvent`s for the same repository and
PR number with `created_at` T1 < T2, the aggregate's action list is exactly
the T1-derived action followed by the T2-derived action, for either order of
the two events in the input array (pass A sorts the filtered events by
creation timestamp with a stable sort).
-/
theorem claim_C6_actions_in_timestamp_order (e1 e2 : github_models.PullRequestEvent)
    (hrepo : e1.repo.name = e2.repo.name)
    (hnum : e1.payload.pull_request.number = e2.payload.pull_request.number)
    (ht : e1.created_at < e2.created_at)
    (l : List github_models.Event)
    (hl : l = [.pullRequestEvent e1, .pullRequestEvent e2] ∨
          l = [.pullRequestEvent e2, .pullRequestEvent e1]) :
    (main.lookupPR (main.main_aggregate l) e1.repo.name
        (toString e1.payload.pull_request.number)).map (fun pr => pr.actions) =
      some [{ action := "PR " ++ e1.payload.action, date := e1.created_at, by_ := e1.actor.login },
            { action := "PR " ++ e2.payload.action, date := e2.created_at, by_ := e2.actor.login }] := by
  have hDle : main.pr_event_le e1 e2 := le_of_lt ht
  have hnle : ¬ main.pr_event_le e2 e1 := not_le.mpr ht
  have hsorted : List.insertionSort main.pr_event_le (l.filterMap main.event_is_pull_request) =
      [e1, e2] := by
    rcases hl with rfl | rfl
    · simp [main.event_is_pull_request, List.insertionSort, List.orderedInsert, hDle]
    · simp [main.event_is_pull_request, List.insertionSort, List.orderedInsert, hDle, hnle]
  have hicnil : l.filterMap main.event_is_issue_comment = [] := by
    rcases hl with rfl | rfl <;> simp [main.event_is_issue_comment]
  unfold main.main_aggregate main.pass_b main.pass_a
  rw [hsorted, hicnil]
  simp only [List.insertionSort, List.foldl]
  simp [main.processPullRequestEvent, main.processPullRequestEventRepo,
    main.dictGet_nil, main.dictSet_nil, main.dictGet_cons, main.dictGet_dictSet,
    main.updateLinkedIssues_actions, main.lookupPR, hrepo, hnum]

/-- Witness for C6: the two fixture events given in reversed input order. -/
theorem claim_C6_actions_in_timestamp_order_witness :
    (main.lookupPR
        (main.main_aggregate [.pullRequestEvent fixtures.c6_e2, .pullRequestEvent fixtures.c6_e1])
        "w6/repo" "3").map (fun pr => pr.actions) =
      some [{ action := "PR opened", date := 1, by_ := "eve" },
            { action := "PR closed", date := 2, by_ := "eve" }] :=
  claim_C6_actions_in_timestamp_order fixtures.c6_e1 fixtures.c6_e2 rfl rfl (by decide) _
    (Or.inr rfl)

namespace main

theorem dictGet_dictSet_self {α : Type} (m : List (String × α)) (k : String) (v : α) :
    dictGet (dictSet m k v) k = some v := by
  rw [dictGet_dictSet, if_pos rfl]

theorem dictGet_dictSet_ne {α : Type} {m : List (String × α)} {k k' : String} {v : α}
    (h : ¬ k = k') : dictGet (dictSet m k v) k' = dictGet m k' := by
  rw [dictGet_dictSet, if_neg h]

theorem processPullRequestEvent_frame (s : List (String × Repository))
    (e : github_models.PullRequestEvent) (r k : String) (pr : PullRequest)
    (h : lookupPR s r k = some pr) :
    ∃ pr', lookupPR (processPullRequestEvent s e) r k = some pr'
      ∧ prIdentityEq pr' pr ∧ ∃ extra, pr'.actions = pr.actions ++ extra := by
  simp only [lookupPR] at h
  cases hrep : dictGet s r with
  | none => rw [hrep] at h; cases h
  | some repo =>
    rw [hrep] at h
    simp only [Option.some_bind] at h
    by_cases hr : e.repo.name = r
    · subst hr
      simp only [processPullRequestEvent, lookupPR, dictGet_dictSet_self, hrep,
        Option.some_bind, processPullRequestEventRepo]
      by_cases hk : toString e.payload.pull_request.number = k
      · subst hk
        rw [h]
        simp only [dictGet_dictSet_self, Option.some_bind]
        obtain ⟨ids, hup⟩ := updateLinkedIssues_eq
          { pr with actions := pr.actions ++
              [{ action := "PR " ++ e.payload.action, date := e.created_at,
                 by_ := e.actor.login }] } e.payload.pull_request.body
        rw [hup]
        exact ⟨_, rfl, ⟨rfl, rfl, rfl, rfl, rfl⟩, ⟨_, rfl⟩⟩
      · simp only [dictGet_dictSet_ne hk, h]
        exact ⟨pr, rfl, ⟨rfl, rfl, rfl, rfl, rfl⟩, ⟨[], (List.append_nil _).symm⟩⟩
    · simp only [processPullRequestEvent, lookupPR, dictGet_dictSet_ne hr, hrep,
        Option.some_bind, h]
      exact ⟨pr, rfl, ⟨rfl, rfl, rfl, rfl, rfl⟩, ⟨[], (List.append_nil _).symm⟩⟩

theorem processIssueCommentEvent_frame (s : List (String × Repository))
    (e : github_models.IssueCommentEvent) (r k : String) (pr : PullRequest)
    (h : lookupPR s r k = some pr) :
    ∃ pr', lookupPR (processIssueCommentEvent s e) r k = some pr'
      ∧ prIdentityEq pr' pr ∧ ∃ extra, pr'.actions = pr.actions ++ extra := by
  simp only [lookupPR] at h
  cases hrep : dictGet s r with
  | none => rw [hrep] at h; cases h
  | some repo =>
    rw [hrep] at h
    simp only [Option.some_bind] at h
    by_cases hr : e.repo.name = r
    · subst hr
      simp only [processIssueCommentEvent, lookupPR, dictGet_dictSet_self, hrep,
        Option.some_bind, processIssueCommentEventRepo]
      cases hlnk : e.payload.issue.pull_request with
      | some lnk =>
        by_cases hk : toString e.payload.issue.number = k
        · subst hk
          rw [h]
          simp only [dictGet_dictSet_self, Option.some_bind]
          exact ⟨_, rfl, ⟨rfl, rfl, rfl, rfl, rfl⟩, ⟨_, rfl⟩⟩
        · simp only [dictGet_dictSet_ne hk, h]
          exact ⟨pr, rfl, ⟨rfl, rfl, rfl, rfl, rfl⟩, ⟨[], (List.append_nil _).symm⟩⟩
      | none =>
        simp only [h]
        exact ⟨pr, rfl, ⟨rfl, rfl, rfl, rfl, rfl⟩, ⟨[], (List.append_nil _).symm⟩⟩
    · simp only [processIssueCommentEvent, lookupPR, dictGet_dictSet_ne hr, hrep,
        Option.some_bind, h]
      exact ⟨pr, rfl, ⟨rfl, rfl, rfl, rfl, rfl⟩, ⟨[], (List.append_nil _).symm⟩⟩

end main

namespace main

theorem prIdentityEq_refl (a : PullRequest) : prIdentityEq a a := ⟨rfl, rfl, rfl, rfl, rfl⟩

theorem prIdentityEq_trans {a b c : PullRequest} (h1 : prIdentityEq a b)
    (h2 : prIdentityEq b c) : prIdentityEq a c :=
  ⟨h1.1.trans h2.1, h1.2.1.trans h2.2.1, h1.2.2.1.trans h2.2.2.1,
   h1.2.2.2.1.trans h2.2.2.2.1, h1.2.2.2.2.trans h2.2.2.2.2⟩

theorem foldl_processPullRequestEvent_frame (l : List github_models.PullRequestEvent)
    (s : List (String × Repository)) (r k : String) (pr : PullRequest)
    (h : lookupPR s r k = some pr) :
    ∃ pr', lookupPR (l.foldl processPullRequestEvent s) r k = some pr'
      ∧ prIdentityEq pr' pr ∧ ∃ extra, pr'.actions = pr.actions ++ extra := by
  induction l generalizing s pr with
  | nil => exact ⟨pr, h, prIdentityEq_refl pr, ⟨[], (List.append_nil _).symm⟩⟩
  | cons e t ih =>
    obtain ⟨pr1, h1, hid1, ⟨x1, hx1⟩⟩ := processPullRequestEvent_frame s e r k pr h
    obtain ⟨pr2, h2, hid2, ⟨x2, hx2⟩⟩ := ih (processPullRequestEvent s e) pr1 h1
    exact ⟨pr2, h2, prIdentityEq_trans hid2 hid1,
      ⟨x1 ++ x2, by rw [hx2, hx1, List.append_assoc]⟩⟩

theorem foldl_processIssueCommentEvent_frame (l : List github_models.IssueCommentEvent)
    (s : List (String × Repository)) (r k : String) (pr : PullRequest)
    (h : lookupPR s r k = some pr) :
    ∃ pr', lookupPR (l.foldl processIssueCommentEvent s) r k = some pr'
      ∧ prIdentityEq pr' pr ∧ ∃ extra, pr'.actions = pr.actions ++ extra := by
  induction l generalizing s pr with
  | nil => exact ⟨pr, h, prIdentityEq_refl pr, ⟨[], (List.append_nil _).symm⟩⟩
  | cons e t ih =>
    obtain ⟨pr1, h1, hid1, ⟨x1, hx1⟩⟩ := processIssueCommentEvent_frame s e r k pr h
    obtain ⟨pr2, h2, hid2, ⟨x2, hx2⟩⟩ := ih (processIssueCommentEvent s e) pr1 h1
    exact ⟨pr2, h2, prIdentityEq_trans hid2 hid1,
      ⟨x1 ++ x2, by rw [hx2, hx1, List.append_assoc]⟩⟩

end main

/--
**C10** (confirmed).  Once a `PullRequest` aggregate exists in the
repositories map (created by either pass), processing any further sequence of
pass-A steps followed by any further sequence of pass-B steps — which is how
`main` applies every subsequent event — keeps its `number`, `title`,
`creator`, `branch` and `linked_issues` fields unchanged and only appends to
its action list (the linked-issue id set may be replaced).  In particular an
aggregate created from an `IssueCommentEvent` keeps `branch = none` forever.
-/
theorem claim_C10_aggregate_fields_frozen (prEvents : List github_models.PullRequestEvent)
    (icEvents : List github_models.IssueCommentEvent)
    (s : List (String × main.Repository)) (r k : String) (pr : main.PullRequest)
    (h : main.lookupPR s r k = some pr) :
    ∃ pr', main.lookupPR
        (icEvents.foldl main.processIssueCommentEvent
          (prEvents.foldl main.processPullRequestEvent s)) r k = some pr'
      ∧ main.prIdentityEq pr' pr ∧ ∃ extra, pr'.actions = pr.actions ++ extra := by
  obtain ⟨pr1, h1, hid1, ⟨x1, hx1⟩⟩ :=
    main.foldl_processPullRequestEvent_frame prEvents s r k pr h
  obtain ⟨pr2, h2, hid2, ⟨x2, hx2⟩⟩ :=
    main.foldl_processIssueCommentEvent_frame icEvents _ r k pr1 h1
  exact ⟨pr2, h2, main.prIdentityEq_trans hid2 hid1,
    ⟨x1 ++ x2, by rw [hx2, hx1, List.append_assoc]⟩⟩

/-- Witness for C10: a branchless comment-created aggregate survives a later
`PullRequestEvent` (with conflicting snapshot data and a body) and a later
`IssueCommentEvent` with all identity fields intact. -/
theorem claim_C10_aggregate_fields_frozen_witness :
    ∃ pr', main.lookupPR
        ([fixtures.c10_icev].foldl main.processIssueCommentEvent
          ([fixtures.c10_prev].foldl main.processPullRequestEvent fixtures.c10_state))
        "w10/repo" "2" = some pr'
      ∧ main.prIdentityEq pr' fixtures.c10_pr0
      ∧ ∃ extra, pr'.actions = fixtures.c10_pr0.actions ++ extra :=
  claim_C10_aggregate_fields_frozen [fixtures.c10_prev] [fixtures.c10_icev] fixtures.c10_state
    "w10/repo" "2" fixtures.c10_pr0 (by decide)

namespace main

theorem strHasPrefix_append (p v : String) : strHasPrefix p (p ++ v) = true := by
  rw [strHasPrefix, String.data_append]
  induction p.data with
  | nil => simp [List.isPrefixOf]
  | cons c cs ih => simp [List.isPrefixOf, ih]

theorem prActions_nil (r k : String) : prActions [] r k = [] := rfl

theorem processIssueCommentEvent_prActions (s : List (String × Repository))
    (e : github_models.IssueCommentEvent) (r k : String) :
    ∃ extra, prActions (processIssueCommentEvent s e) r k = prActions s r k ++ extra
      ∧ extra.all (fun a => strHasPrefix "PR comment " a.action) := by
  by_cases hr : e.repo.name = r
  · subst hr
    cases hlnk : e.payload.issue.pull_request with
    | none =>
      cases hrep : dictGet s e.repo.name with
      | none =>
        refine ⟨[], ?_, rfl⟩
        simp [processIssueCommentEvent, prActions, lookupPR, dictGet_dictSet_self,
          processIssueCommentEventRepo, hlnk, hrep, dictGet_nil]
      | some repo =>
        refine ⟨[], ?_, rfl⟩
        simp [processIssueCommentEvent, prActions, lookupPR, dictGet_dictSet_self,
          processIssueCommentEventRepo, hlnk, hrep]
    | some lnk =>
      by_cases hk : toString e.payload.issue.number = k
      · subst hk
        cases hrep : dictGet s e.repo.name with
        | none =>
          refine ⟨[{ action := "PR comment " ++ e.payload.action, date := e.created_at, by_ := e.actor.login }], ?_, ?_⟩
          · simp [processIssueCommentEvent, prActions, lookupPR, dictGet_dictSet_self,
              processIssueCommentEventRepo, hlnk, hrep, dictGet_nil]
          · simp [strHasPrefix_append]
        | some repo =>
          refine ⟨[{ action := "PR comment " ++ e.payload.action, date := e.created_at, by_ := e.actor.login }], ?_, ?_⟩
          · cases hpr : dictGet repo.pull_requests (toString e.payload.issue.number) with
            | none =>
              simp [processIssueCommentEvent, prActions, lookupPR, dictGet_dictSet_self,
                processIssueCommentEventRepo, hlnk, hrep, hpr]
            | some pr0 =>
              simp [processIssueCommentEvent, prActions, lookupPR, dictGet_dictSet_self,
                processIssueCommentEventRepo, hlnk, hrep, hpr]
          · simp [strHasPrefix_append]
      · cases hrep : dictGet s e.repo.name with
        | none =>
          refine ⟨[], ?_, rfl⟩
          simp [processIssueCommentEvent, prActions, lookupPR, dictGet_dictSet_self,
            processIssueCommentEventRepo, hlnk, hrep, dictGet_dictSet_ne hk, dictGet_nil]
        | some repo =>
          refine ⟨[], ?_, rfl⟩
          simp [processIssueCommentEvent, prActions, lookupPR, dictGet_dictSet_self,
            processIssueCommentEventRepo, hlnk, hrep, dictGet_dictSet_ne hk]
  · refine ⟨[], ?_, rfl⟩
    simp [processIssueCommentEvent, prActions, lookupPR, dictGet_dictSet_ne hr]

end main

namespace main

theorem processPullRequestEvent_prActions (s : List (String × Repository))
    (e : github_models.PullRequestEvent) (r k : String) :
    ∃ extra, prActions (processPullRequestEvent s e) r k = prActions s r k ++ extra
      ∧ extra.all (fun a => strHasPrefix "PR " a.action) := by
  by_cases hr : e.repo.name = r
  · subst hr
    by_cases hk : toString e.payload.pull_request.number = k
    · subst hk
      cases hrep : dictGet s e.repo.name with
      | none =>
        refine ⟨[{ action := "PR " ++ e.payload.action, date := e.created_at, by_ := e.actor.login }], ?_, ?_⟩
        · simp [processPullRequestEvent, prActions, lookupPR, dictGet_dictSet_self,
            processPullRequestEventRepo, hrep, dictGet_nil, updateLinkedIssues_actions]
        · simp [strHasPrefix_append]
      | some repo =>
        refine ⟨[{ action := "PR " ++ e.payload.action, date := e.created_at, by_ := e.actor.login }], ?_, ?_⟩
        · cases hpr : dictGet repo.pull_requests (toString e.payload.pull_request.number) with
          | none =>
            simp [processPullRequestEvent, prActions, lookupPR, dictGet_dictSet_self,
              processPullRequestEventRepo, hrep, hpr, updateLinkedIssues_actions]
          | some pr0 =>
            simp [processPullRequestEvent, prActions, lookupPR, dictGet_dictSet_self,
              processPullRequestEventRepo, hrep, hpr, updateLinkedIssues_actions]
        · simp [strHasPrefix_append]
    · cases hrep : dictGet s e.repo.name with
      | none =>
        refine ⟨[], ?_, rfl⟩
        simp [processPullRequestEvent, prActions, lookupPR, dictGet_dictSet_self,
          processPullRequestEventRepo, hrep, dictGet_dictSet_ne hk, dictGet_nil]
      | some repo =>
        refine ⟨[], ?_, rfl⟩
        simp [processPullRequestEvent, prActions, lookupPR, dictGet_dictSet_self,
          processPullRequestEventRepo, hrep, dictGet_dictSet_ne hk]
  · refine ⟨[], ?_, rfl⟩
    simp [processPullRequestEvent, prActions, lookupPR, dictGet_dictSet_ne hr]

theorem foldl_processIssueCommentEvent_prActions (l : List github_models.IssueCommentEvent)
    (s : List (String × Repository)) (r k : String) :
    ∃ extra, prActions (l.foldl processIssueCommentEvent s) r k = prActions s r k ++ extra
      ∧ extra.all (fun a => strHasPrefix "PR comment " a.action) := by
  induction l generalizing s with
  | nil => exact ⟨[], (List.append_nil _).symm, rfl⟩
  | cons e t ih =>
    obtain ⟨x1, hx1, ha1⟩ := processIssueCommentEvent_prActions s e r k
    obtain ⟨x2, hx2, ha2⟩ := ih (processIssueCommentEvent s e)
    refine ⟨x1 ++ x2, ?_, ?_⟩
    · simp only [List.foldl_cons] at *
      rw [hx2, hx1, List.append_assoc]
    · simp only [List.all_append, ha1, ha2, Bool.and_self]

theorem foldl_processPullRequestEvent_prActions (l : List github_models.PullRequestEvent)
    (s : List (String × Repository)) (r k : String) :
    ∃ extra, prActions (l.foldl processPullRequestEvent s) r k = prActions s r k ++ extra
      ∧ extra.all (fun a => strHasPrefix "PR " a.action) := by
  induction l generalizing s with
  | nil => exact ⟨[], (List.append_nil _).symm, rfl⟩
  | cons e t ih =>
    obtain ⟨x1, hx1, ha1⟩ := processPullRequestEvent_prActions s e r k
    obtain ⟨x2, hx2, ha2⟩ := ih (processPullRequestEvent s e)
    refine ⟨x1 ++ x2, ?_, ?_⟩
    · simp only [List.foldl_cons] at *
      rw [hx2, hx1, List.append_assoc]
    · simp only [List.all_append, ha1, ha2, Bool.and_self]

end main

/--
**C9** (confirmed).  In the final state, every `PullRequest` aggregate's
action list is its pass-A action list (every entry of which derives from a
`PullRequestEvent` and reads `"PR " + verb`) followed by the pass-B-appended
entries (each derived from an `IssueCommentEvent` and reading
`"PR comment " + verb`): the `PullRequestEvent` pass runs to completion before
the `IssueCommentEvent` pass begins, so all pass-A actions precede all pass-B
actions regardless of timestamps.
-/
theorem claim_C9_pass_a_actions_precede_pass_b (events : List github_models.Event)
    (r k : String) :
    ∃ extra, main.prActions (main.main_aggregate events) r k =
        main.prActions (main.pass_a events []) r k ++ extra
      ∧ extra.all (fun a => main.strHasPrefix "PR comment " a.action)
      ∧ (main.prActions (main.pass_a events []) r k).all
          (fun a => main.strHasPrefix "PR " a.action) := by
  obtain ⟨extra, hx, ha⟩ := main.foldl_processIssueCommentEvent_prActions
    (List.insertionSort main.ic_event_le (events.filterMap main.event_is_issue_comment))
    (main.pass_a events []) r k
  obtain ⟨xa, hxa, haa⟩ := main.foldl_processPullRequestEvent_prActions
    (List.insertionSort main.pr_event_le (events.filterMap main.event_is_pull_request)) [] r k
  refine ⟨extra, hx, ha, ?_⟩
  have : main.prActions (main.pass_a events []) r k = xa := by
    rw [main.pass_a] at *
    rw [hxa, main.prActions_nil, List.nil_append]
  rw [this]
  exact haa

namespace main

theorem dictGet_processPullRequestEvent (s : List (String × Repository))
    (e : github_models.PullRequestEvent) (r : String) :
    dictGet (processPullRequestEvent s e) r =
      if e.repo.name = r then
        some (processPullRequestEventRepo e (dictGet s e.repo.name))
      else dictGet s r := by
  rw [processPullRequestEvent, dictGet_dictSet]

theorem dictGet_processIssueCommentEvent (s : List (String × Repository))
    (e : github_models.IssueCommentEvent) (r : String) :
    dictGet (processIssueCommentEvent s e) r =
      if e.repo.name = r then
        some (processIssueCommentEventRepo e (dictGet s e.repo.name))
      else dictGet s r := by
  rw [processIssueCommentEvent, dictGet_dictSet]

theorem foldl_processPullRequestEvent_entry_congr (l : List github_models.PullRequestEvent)
    (s₁ s₂ : List (String × Repository)) (r : String)
    (h : dictGet s₁ r = dictGet s₂ r) :
    dictGet (l.foldl processPullRequestEvent s₁) r =
      dictGet (l.foldl processPullRequestEvent s₂) r := by
  induction l generalizing s₁ s₂ with
  | nil => exact h
  | cons e t ih =>
    refine ih _ _ ?_
    rw [dictGet_processPullRequestEvent, dictGet_processPullRequestEvent]
    by_cases hr : e.repo.name = r
    · rw [if_pos hr, if_pos hr, hr, h]
    · rw [if_neg hr, if_neg hr]; exact h

theorem foldl_processIssueCommentEvent_entry_congr (l : List github_models.IssueCommentEvent)
    (s₁ s₂ : List (String × Repository)) (r : String)
    (h : dictGet s₁ r = dictGet s₂ r) :
    dictGet (l.foldl processIssueCommentEvent s₁) r =
      dictGet (l.foldl processIssueCommentEvent s₂) r := by
  induction l generalizing s₁ s₂ with
  | nil => exact h
  | cons e t ih =>
    refine ih _ _ ?_
    rw [dictGet_processIssueCommentEvent, dictGet_processIssueCommentEvent]
    by_cases hr : e.repo.name = r
    · rw [if_pos hr, if_pos hr, hr, h]
    · rw [if_neg hr, if_neg hr]; exact h

theorem foldl_processPullRequestEvent_filter (l : List github_models.PullRequestEvent)
    (s : List (String × Repository)) (r : String) :
    dictGet (l.foldl processPullRequestEvent s) r =
      dictGet ((l.filter (fun e => e.repo.name == r)).foldl processPullRequestEvent s) r := by
  induction l generalizing s with
  | nil => rfl
  | cons e t ih =>
    by_cases hr : e.repo.name = r
    · have hb : (e.repo.name == r) = true := by simp [hr]
      simp only [List.filter_cons, hb, if_true, List.foldl_cons]
      exact ih _
    · have hb : (e.repo.name == r) = false := by simp [hr]
      simp only [List.filter_cons, hb, Bool.false_eq_true, if_false, List.foldl_cons]
      rw [ih (processPullRequestEvent s e)]
      refine foldl_processPullRequestEvent_entry_congr _ _ _ _ ?_
      rw [dictGet_processPullRequestEvent, if_neg hr]

theorem foldl_processIssueCommentEvent_filter (l : List github_models.IssueCommentEvent)
    (s : List (String × Repository)) (r : String) :
    dictGet (l.foldl processIssueCommentEvent s) r =
      dictGet ((l.filter (fun e => e.repo.name == r)).foldl processIssueCommentEvent s) r := by
  induction l generalizing s with
  | nil => rfl
  | cons e t ih =>
    by_cases hr : e.repo.name = r
    · have hb : (e.repo.name == r) = true := by simp [hr]
      simp only [List.filter_cons, hb, if_true, List.foldl_cons]
      exact ih _
    · have hb : (e.repo.name == r) = false := by simp [hr]
      simp only [List.filter_cons, hb, Bool.false_eq_true, if_false, List.foldl_cons]
      rw [ih (processIssueCommentEvent s e)]
      refine foldl_processIssueCommentEvent_entry_congr _ _ _ _ ?_
      rw [dictGet_processIssueCommentEvent, if_neg hr]

theorem filterMap_pr_of_filter (events : List github_models.Event) (r : String) :
    (events.filter (fun e => e.repoName == r)).filterMap event_is_pull_request =
      (events.filterMap event_is_pull_request).filter (fun e => e.repo.name == r) := by
  induction events with
  | nil => rfl
  | cons e t ih =>
    cases e with
    | pullRequestEvent pe =>
      have hpr : event_is_pull_request (github_models.Event.pullRequestEvent pe) = some pe := rfl
      by_cases hr : pe.repo.name = r
      · have hb : ((github_models.Event.pullRequestEvent pe).repoName == r) = true := by
          show (pe.repo.name == r) = true
          simp [hr]
        have hq : (pe.repo.name == r) = true := by simp [hr]
        simp only [List.filter_cons, hb, if_true, List.filterMap_cons, hpr, hq, ih]
      · have hb : ((github_models.Event.pullRequestEvent pe).repoName == r) = false := by
          show (pe.repo.name == r) = false
          simp [hr]
        have hq : (pe.repo.name == r) = false := by simp [hr]
        simp only [List.filter_cons, hb, Bool.false_eq_true, if_false, List.filterMap_cons,
          hpr, hq, ih]
    | issueCommentEvent ie =>
      have hpr : event_is_pull_request (github_models.Event.issueCommentEvent ie) = none := rfl
      by_cases hr : ie.repo.name = r
      · have hb : ((github_models.Event.issueCommentEvent ie).repoName == r) = true := by
          show (ie.repo.name == r) = true
          simp [hr]
        simp only [List.filter_cons, hb, if_true, List.filterMap_cons, hpr, ih]
      · have hb : ((github_models.Event.issueCommentEvent ie).repoName == r) = false := by
          show (ie.repo.name == r) = false
          simp [hr]
        simp only [List.filter_cons, hb, Bool.false_eq_true, if_false, List.filterMap_cons,
          hpr, ih]
    | otherEvent repo t0 =>
      have hpr : event_is_pull_request (github_models.Event.otherEvent repo t0) = none := rfl
      by_cases hr : repo.name = r
      · have hb : ((github_models.Event.otherEvent repo t0).repoName == r) = true := by
          show (repo.name == r) = true
          simp [hr]
        simp only [List.filter_cons, hb, if_true, List.filterMap_cons, hpr, ih]
      · have hb : ((github_models.Event.otherEvent repo t0).repoName == r) = false := by
          show (repo.name == r) = false
          simp [hr]
        simp only [List.filter_cons, hb, Bool.false_eq_true, if_false, List.filterMap_cons,
          hpr, ih]

theorem filterMap_ic_of_filter (events : List github_models.Event) (r : String) :
    (events.filter (fun e => e.repoName == r)).filterMap event_is_issue_comment =
      (events.filterMap event_is_issue_comment).filter (fun e => e.repo.name == r) := by
  induction events with
  | nil => rfl
  | cons e t ih =>
    cases e with
    | pullRequestEvent pe =>
      have hpr : event_is_issue_comment (github_models.Event.pullRequestEvent pe) = none := rfl
      by_cases hr : pe.repo.name = r
      · have hb : ((github_models.Event.pullRequestEvent pe).repoName == r) = true := by
          show (pe.repo.name == r) = true
          simp [hr]
        simp only [List.filter_cons, hb, if_true, List.filterMap_cons, hpr, ih]
      · have hb : ((github_models.Event.pullRequestEvent pe).repoName == r) = false := by
          show (pe.repo.name == r) = false
          simp [hr]
        simp only [List.filter_cons, hb, Bool.false_eq_true, if_false, List.filterMap_cons,
          hpr, ih]
    | issueCommentEvent ie =>
      have hpr : event_is_issue_comment (github_models.Event.issueCommentEvent ie) = some ie :=
        rfl
      by_cases hr : ie.repo.name = r
      · have hb : ((github_models.Event.issueCommentEvent ie).repoName == r) = true := by
          show (ie.repo.name == r) = true
          simp [hr]
        have hq : (ie.repo.name == r) = true := by simp [hr]
        simp only [List.filter_cons, hb, if_true, List.filterMap_cons, hpr, hq, ih]
      · have hb : ((github_models.Event.issueCommentEvent ie).repoName == r) = false := by
          show (ie.repo.name == r) = false
          simp [hr]
        have hq : (ie.repo.name == r) = false := by simp [hr]
        simp only [List.filter_cons, hb, Bool.false_eq_true, if_false, List.filterMap_cons,
          hpr, hq, ih]
    | otherEvent repo t0 =>
      have hpr : event_is_issue_comment (github_models.Event.otherEvent repo t0) = none := rfl
      by_cases hr : repo.name = r
      · have hb : ((github_models.Event.otherEvent repo t0).repoName == r) = true := by
          show (repo.name == r) = true
          simp [hr]
        simp only [List.filter_cons, hb, if_true, List.filterMap_cons, hpr, ih]
      · have hb : ((github_models.Event.otherEvent repo t0).repoName == r) = false := by
          show (repo.name == r) = false
          simp [hr]
        simp only [List.filter_cons, hb, Bool.false_eq_true, if_false, List.filterMap_cons,
          hpr, ih]

end main

namespace main

theorem orderedInsert_of_forall_le {α : Type} (rl : α → α → Prop) [DecidableRel rl]
    (a : α) (l : List α) (h : ∀ b ∈ l, rl a b) : List.orderedInsert rl a l = a :: l := by
  cases l with
  | nil => rfl
  | cons b t => rw [List.orderedInsert, if_pos (h b (List.mem_cons_self _ _))]

theorem filter_orderedInsert {α : Type} (rl : α → α → Prop) [DecidableRel rl] [IsTrans α rl]
    (p : α → Bool) (a : α) (l : List α) (hl : l.Pairwise rl) :
    (List.orderedInsert rl a l).filter p =
      if p a then List.orderedInsert rl a (l.filter p) else l.filter p := by
  induction l with
  | nil =>
    rw [List.orderedInsert, List.filter_cons]
    cases hpa : p a <;> simp
  | cons b t ih =>
    rcases List.pairwise_cons.mp hl with ⟨hb, ht⟩
    by_cases hab : rl a b
    · rw [List.orderedInsert, if_pos hab]
      cases hpa : p a with
      | true =>
        rw [if_pos rfl]
        have h1 : (a :: b :: t).filter p = a :: (b :: t).filter p := by
          rw [List.filter_cons, hpa, if_pos rfl]
        rw [h1, orderedInsert_of_forall_le]
        intro x hx
        rcases List.mem_cons.mp (List.mem_of_mem_filter hx) with rfl | hxt
        · exact hab
        · exact Trans.trans hab (hb x hxt)
      | false =>
        rw [if_neg (by simp [hpa]), List.filter_cons, hpa]
        simp only [Bool.false_eq_true, if_false]
    · rw [List.orderedInsert, if_neg hab]
      cases hpb : p b with
      | true =>
        have h2 : (b :: List.orderedInsert rl a t).filter p =
            b :: (List.orderedInsert rl a t).filter p := by
          rw [List.filter_cons, hpb, if_pos rfl]
        have h3 : (b :: t).filter p = b :: t.filter p := by
          rw [List.filter_cons, hpb, if_pos rfl]
        rw [h2, h3, ih ht]
        cases hpa : p a with
        | true =>
          rw [if_pos rfl, if_pos rfl, List.orderedInsert, if_neg hab]
        | false =>
          rw [if_neg (by simp), if_neg (by simp)]
      | false =>
        have h2 : (b :: List.orderedInsert rl a t).filter p =
            (List.orderedInsert rl a t).filter p := by
          rw [List.filter_cons, hpb, if_neg (by simp)]
        have h3 : (b :: t).filter p = t.filter p := by
          rw [List.filter_cons, hpb, if_neg (by simp)]
        rw [h2, h3, ih ht]

theorem filter_insertionSort {α : Type} (rl : α → α → Prop) [DecidableRel rl]
    [IsTotal α rl] [IsTrans α rl] (p : α → Bool) (l : List α) :
    (List.insertionSort rl l).filter p = List.insertionSort rl (l.filter p) := by
  induction l with
  | nil => rfl
  | cons a t ih =>
    rw [List.insertionSort,
      filter_orderedInsert rl p a _ (List.sorted_insertionSort rl t), List.filter_cons]
    cases hpa : p a with
    | true =>
      rw [if_pos rfl, ih]
      rfl
    | false =>
      rw [if_neg (by simp), ih, if_neg (by simp)]

end main

/--
**C8** (confirmed).  Aggregates are never shared across repositories: the
entry stored under a repository name is fully determined by the events whose
envelope names that repository — events of every other repository (even with
numerically colliding PR/issue numbers) leave it untouched, so the aggregation
of the full event list and of the list filtered to that repository agree on
that repository's entry.
-/
theorem claim_C8_no_cross_repo_sharing (events : List github_models.Event) (r : String) :
    main.dictGet (main.main_aggregate events) r =
      main.dictGet (main.main_aggregate (events.filter (fun e => e.repoName == r))) r := by
  have hA : (List.insertionSort main.pr_event_le
        ((events.filter (fun e => e.repoName == r)).filterMap
          main.event_is_pull_request)).filter (fun e => e.repo.name == r) =
      (List.insertionSort main.pr_event_le
        (events.filterMap main.event_is_pull_request)).filter (fun e => e.repo.name == r) := by
    rw [main.filterMap_pr_of_filter, ← main.filter_insertionSort, List.filter_filter]
    simp only [Bool.and_self]
  have hB : (List.insertionSort main.ic_event_le
        ((events.filter (fun e => e.repoName == r)).filterMap
          main.event_is_issue_comment)).filter (fun e => e.repo.name == r) =
      (List.insertionSort main.ic_event_le
        (events.filterMap main.event_is_issue_comment)).filter (fun e => e.repo.name == r) := by
    rw [main.filterMap_ic_of_filter, ← main.filter_insertionSort, List.filter_filter]
    simp only [Bool.and_self]
  have h1 : main.dictGet (main.pass_a events []) r =
      main.dictGet (main.pass_a (events.filter (fun e => e.repoName == r)) []) r := by
    rw [main.pass_a, main.pass_a,
      main.foldl_processPullRequestEvent_filter
        (List.insertionSort main.pr_event_le (events.filterMap main.event_is_pull_request)) [] r,
      main.foldl_processPullRequestEvent_filter
        (List.insertionSort main.pr_event_le
          ((events.filter (fun e => e.repoName == r)).filterMap main.event_is_pull_request))
        [] r,
      hA]
  rw [main.main_aggregate, main.main_aggregate, main.pass_b, main.pass_b,
    main.foldl_processIssueCommentEvent_filter
      (List.insertionSort main.ic_event_le (events.filterMap main.event_is_issue_comment))
      (main.pass_a events []) r,
    main.foldl_processIssueCommentEvent_filter
      (List.insertionSort main.ic_event_le
        ((events.filter (fun e => e.repoName == r)).filterMap main.event_is_issue_comment))
      (main.pass_a (events.filter (fun e => e.repoName == r)) []) r,
    hB]
  exact main.foldl_processIssueCommentEvent_entry_congr _ _ _ r h1
